import Mathlib

/-!
Verification of the classification-and-merge engine of
`yomikae-data/expand_false_friends.py`.

The Python source is embedded shallowly:
* the `FalseFriend` dataclass becomes a Lean structure (same fields, same
  defaults);
* Python floats are modelled as `ℚ` (all scores here are exact small
  rationals `|I|/|U|`);
* Python sets of tokens become `Finset String`;
* the Python dict `merged` (insertion-ordered, update-in-place) becomes an
  insertion-ordered association list keyed by `characters`;
* `list.sort` / `sorted` (stable) become `List.mergeSort` (stable) with the
  corresponding boolean key comparison.
-/

namespace Yomikae

/-- The `FalseFriend` dataclass of the source, fields and defaults verbatim. -/
structure FalseFriend where
  id : String
  characters : String
  type : Int
  category : String
  severity : String
  affects : String
  jp_reading : String
  jp_meanings : List String
  jp_example : String := ""
  jp_example_translation : String := ""
  cn_pinyin : String := ""
  cn_characters : String := ""
  cn_meanings_simplified : List String := []
  cn_meanings_traditional : List String := []
  cn_example : String := ""
  cn_example_translation : String := ""
  explanation : String := ""
  mnemonic_tip : String := ""
  traditional_note : String := ""
  merged_from : List String := []
  shared_meanings : List String := []
  jp_only_meanings : List String := []
  cn_only_meanings : List String := []
  source : String := "auto"
  confidence : ℚ := 1
  needs_review : Bool := false
deriving DecidableEq, Repr

/-- Python `str.split()` with no separator: split on runs of whitespace,
producing no empty tokens. `cur` accumulates the current token reversed. -/
def splitWsAux : List Char → List Char → List String
  | [], cur => if cur = [] then [] else [String.mk cur.reverse]
  | c :: cs, cur =>
    if c.isWhitespace then
      if cur = [] then splitWsAux cs []
      else String.mk cur.reverse :: splitWsAux cs []
    else splitWsAux cs (c :: cur)

/-- Python `m.lower().split()`: lowercase, split on whitespace runs,
dropping empty tokens. -/
def pyTokens (m : String) : List String :=
  splitWsAux (m.data.map Char.toLower) []

/-- The token set one side of `compute_meaning_similarity` builds:
`words.update(m.lower().split())` over all meaning strings. -/
def tokenSet (meanings : List String) : Finset String :=
  (meanings.flatMap pyTokens).toFinset

/-- `compute_meaning_similarity` (source lines 301-323): 0.5 when either
meanings list is empty or either token set is empty, otherwise the Jaccard
similarity of the two token sets (with the source's final
`if union else 0.5` guard kept). -/
def compute_meaning_similarity (jp_meanings cn_meanings : List String) : ℚ :=
  if jp_meanings = [] ∨ cn_meanings = [] then 1/2
  else if tokenSet jp_meanings = ∅ ∨ tokenSet cn_meanings = ∅ then 1/2
  else if tokenSet jp_meanings ∪ tokenSet cn_meanings = ∅ then 1/2
  else ((tokenSet jp_meanings ∩ tokenSet cn_meanings).card : ℚ) /
    ((tokenSet jp_meanings ∪ tokenSet cn_meanings).card : ℚ)

/-- The pattern classification of `convert_jckv_database`
(source lines 132-161): `PATTERN_MAP` for the four recognized codes; the
explicit skips of `＝` and `φ` and the `pattern not in PATTERN_MAP` guard
all produce no record, modelled as `none`. -/
def classify_pattern (pattern : String) : Option (Int × String × String) :=
  if pattern = "＞" then some (1, "important", "scope_difference")
  else if pattern = "＜" then some (2, "important", "scope_difference")
  else if pattern = "＞＜" then some (3, "important", "scope_difference")
  else if pattern = "≠" then some (4, "critical", "true_divergence")
  else none

/-- Zero-padded 4-digit decimal, Python `f"{n:04d}"` for `n ≥ 0`. -/
def pad4 (n : Nat) : String :=
  String.mk (List.replicate (4 - (toString n).length) '0') ++ toString n

/-- `n/100` rounded half-to-even, computed from the numerator and
denominator so it evaluates by reduction; used for Python's `f"{x:.2f}"`
(whose ties round to even) on the non-negative scores that arise here. -/
def roundCents (q : ℚ) : ℤ :=
  let t := q.num * 100
  let d := (q.den : ℤ)
  let f := t.ediv d
  let r := t.emod d
  if 2 * r < d then f
  else if d < 2 * r then f + 1
  else if f % 2 = 0 then f else f + 1

/-- Python `f"{q:.2f}"` for non-negative `q`: two decimal places. -/
def fmt2 (q : ℚ) : String :=
  let n := roundCents q
  toString (n / 100) ++ "." ++
    (if (n % 100).toNat < 10 then "0" ++ toString ((n % 100).toNat)
     else toString ((n % 100).toNat))

/-- The body of the `if similarity < threshold` block of
`auto_detect_false_friends` (source lines 351-372): the candidate record
built for one shared word, or `none` when the similarity score is at or
above the threshold. `idx` is `len(candidates)` at emission time. -/
def autoCandidate (word : String) (jp cn : List String) (threshold : ℚ)
    (idx : Nat) : Option FalseFriend :=
  if compute_meaning_similarity jp cn < threshold then
    some
      { id := "auto_" ++ pad4 idx
        characters := word
        type := if compute_meaning_similarity jp cn < 1/10 then 4 else 3
        category := "true_divergence"
        severity :=
          if compute_meaning_similarity jp cn < 1/10 then "critical"
          else if compute_meaning_similarity jp cn < 1/5 then "important"
          else "subtle"
        affects := "both"
        jp_reading := ""
        jp_meanings := jp
        cn_pinyin := ""
        cn_meanings_simplified := cn
        cn_meanings_traditional := cn
        explanation :=
          "Auto-detected: meaning similarity " ++
            fmt2 (compute_meaning_similarity jp cn)
        source := "auto"
        confidence := 1 - compute_meaning_similarity jp cn
        needs_review := true }
  else none

/-- One iteration of the `for word in shared` loop: append the candidate
(if any) to the accumulated list. -/
def autoStep (threshold : ℚ) (acc : List FalseFriend)
    (e : String × List String × List String) : List FalseFriend :=
  match autoCandidate e.1 e.2.1 e.2.2 threshold acc.length with
  | some ff => acc ++ [ff]
  | none => acc

/-- `auto_detect_false_friends` (source lines 326-378). The JMDict/CEDICT
loaders are external stubs in the source, so the iteration over the shared
keys of the two meaning maps is parametrised by the list of shared words
together with their meanings on each side. The final
`candidates.sort(key=confidence, reverse=True)` (stable, descending)
becomes a stable merge sort keeping the higher-confidence record first. -/
def auto_detect_false_friends
    (shared : List (String × List String × List String))
    (threshold : ℚ) : List FalseFriend :=
  (shared.foldl (autoStep threshold) []).mergeSort
    (fun a b => decide (b.confidence ≤ a.confidence))

/-- The Python dict `merged` keyed by `characters`: insertion-ordered list
of records whose `characters` are pairwise distinct. `merged[k] = v`
updates in place when the key is present, else appends. -/
def dictInsert (m : List FalseFriend) (ff : FalseFriend) : List FalseFriend :=
  if m.any (fun x => x.characters == ff.characters) then
    m.map (fun x => if x.characters == ff.characters then ff else x)
  else m ++ [ff]

/-- `if not ff.jp_reading and existing.jp_reading: ff.jp_reading = existing.jp_reading`
(source lines 447-448); Python truthiness of a string is non-emptiness. -/
def backfillReading (ff existing : FalseFriend) : FalseFriend :=
  if ff.jp_reading = "" ∧ ¬ existing.jp_reading = "" then
    { ff with jp_reading := existing.jp_reading }
  else ff

/-- `if not ff.cn_pinyin and existing.cn_pinyin: ff.cn_pinyin = existing.cn_pinyin`
(source lines 449-450). -/
def backfillPinyin (ff existing : FalseFriend) : FalseFriend :=
  if ff.cn_pinyin = "" ∧ ¬ existing.cn_pinyin = "" then
    { ff with cn_pinyin := existing.cn_pinyin }
  else ff

/-- The mid-trust (JCKV) insertion step of `merge_false_friends`
(source lines 443-451): when the key is already present, backfill the two
phonetic fields from the existing record, then overwrite the slot. -/
def addJckvRecord (m : List FalseFriend) (ff : FalseFriend) : List FalseFriend :=
  match m.find? (fun x => x.characters == ff.characters) with
  | some existing => dictInsert m (backfillPinyin (backfillReading ff existing) existing)
  | none => dictInsert m ff

/-- `severity_order.get(x.severity, 3)` from the sort key of
`merge_false_friends` (source line 458): unrecognized severities fall back
to 3 rather than raising. -/
def severity_order (s : String) : Nat :=
  if s = "critical" then 0
  else if s = "important" then 1
  else if s = "subtle" then 2
  else 3

/-- Boolean comparison of the sort keys
`(severity_order.get(x.severity, 3), x.characters)`. -/
def ffLE (a b : FalseFriend) : Bool :=
  decide (severity_order a.severity < severity_order b.severity ∨
    (severity_order a.severity = severity_order b.severity ∧
      a.characters ≤ b.characters))

/-- `merge_false_friends` (source lines 427-465): build the dict from the
lowest-trust source up, then sort by `(severity rank, characters)`
(`sorted` is a stable sort; `mergeSort` is too). -/
def merge_false_friends (curated jckv auto : List FalseFriend) :
    List FalseFriend :=
  ((curated.foldl dictInsert
      (jckv.foldl addJckvRecord
        (auto.foldl dictInsert []))).mergeSort ffLE)

/-- The `characters` column of a record list. -/
def charsOf (l : List FalseFriend) : List String :=
  l.map FalseFriend.characters

/-- A sample auto-detected record (non-empty `jp_reading`). -/
def sampleAuto : FalseFriend :=
  { id := "auto_0000", characters := "愛人", type := 4
    category := "true_divergence", severity := "critical", affects := "both"
    jp_reading := "アイジン", jp_meanings := ["lover"]
    source := "auto", needs_review := true }

/-- A sample JCKV record colliding with `sampleAuto` on `characters`,
with empty `jp_reading` and non-empty `cn_pinyin`. -/
def sampleJckv : FalseFriend :=
  { id := "jckv_0001", characters := "愛人", type := 4
    category := "true_divergence", severity := "critical", affects := "both"
    jp_reading := "", jp_meanings := ["spouse"], cn_pinyin := "ài rén"
    source := "jckv", needs_review := true }

/-- A sample curated record colliding with the two above, with empty
phonetic fields. -/
def sampleCurated : FalseFriend :=
  { id := "ff_001", characters := "愛人", type := 4
    category := "true_divergence", severity := "critical", affects := "both"
    jp_reading := "", jp_meanings := ["mistress"]
    source := "curated", needs_review := false }

end Yomikae

namespace Yomikae

/-- C2: the four recognized codes map to their documented triples, the two
not-a-false-friend codes and anything unrecognized signal skip. -/
theorem classifier_mapping :
    classify_pattern "＞" = some (1, "important", "scope_difference") ∧
    classify_pattern "＜" = some (2, "important", "scope_difference") ∧
    classify_pattern "＞＜" = some (3, "important", "scope_difference") ∧
    classify_pattern "≠" = some (4, "critical", "true_divergence") ∧
    classify_pattern "＝" = none ∧
    classify_pattern "φ" = none ∧
    ∀ p : String, ¬ p = "＞" → ¬ p = "＜" → ¬ p = "＞＜" → ¬ p = "≠" →
      classify_pattern p = none := by
  refine ⟨by decide, by decide, by decide, by decide, by decide, by decide, ?_⟩
  intro p h1 h2 h3 h4
  simp [classify_pattern, h1, h2, h3, h4]

/-- Witness for C2 at a concrete unrecognized code. -/
theorem classifier_mapping_witness :
    classify_pattern "??" = none :=
  classifier_mapping.2.2.2.2.2.2 "??" (by decide) (by decide) (by decide) (by decide)

/-- C7: similarity is exactly 1/2 whenever either meanings list is empty,
and also whenever either side's token set is empty. -/
theorem similarity_empty_sentinel (jp cn : List String) :
    (jp = [] ∨ cn = [] → compute_meaning_similarity jp cn = 1/2) ∧
    (tokenSet jp = ∅ ∨ tokenSet cn = ∅ → compute_meaning_similarity jp cn = 1/2) := by
  constructor
  · intro h
    simp only [compute_meaning_similarity, if_pos h]
  · intro h
    unfold compute_meaning_similarity
    by_cases hl : jp = [] ∨ cn = []
    · rw [if_pos hl]
    · rw [if_neg hl, if_pos h]

/-- Witness for C7: empty list side, and whitespace-only (empty token set)
side. -/
theorem similarity_empty_sentinel_witness :
    compute_meaning_similarity [] ["run"] = 1/2 ∧
    compute_meaning_similarity ["   "] ["run"] = 1/2 :=
  ⟨(similarity_empty_sentinel [] ["run"]).1 (Or.inl rfl),
   (similarity_empty_sentinel ["   "] ["run"]).2 (Or.inl (by decide))⟩

set_option maxHeartbeats 2000000 in
set_option maxRecDepth 4000 in
lemma sim_run_run : compute_meaning_similarity ["run fast"] ["run fast"] = 1 := by
  unfold compute_meaning_similarity
  rw [if_neg (by decide), if_neg (by decide), if_neg (by decide)]
  rw [show (tokenSet ["run fast"] ∩ tokenSet ["run fast"]).card = 2 from by decide]
  rw [show (tokenSet ["run fast"] ∪ tokenSet ["run fast"]).card = 2 from by decide]
  norm_num

set_option maxHeartbeats 2000000 in
set_option maxRecDepth 4000 in
lemma sim_run_sit : compute_meaning_similarity ["run fast"] ["sit slow"] = 0 := by
  unfold compute_meaning_similarity
  rw [if_neg (by decide), if_neg (by decide), if_neg (by decide)]
  rw [show (tokenSet ["run fast"] ∩ tokenSet ["sit slow"]).card = 0 from by decide]
  rw [show (tokenSet ["run fast"] ∪ tokenSet ["sit slow"]).card = 4 from by decide]
  norm_num

set_option maxHeartbeats 2000000 in
set_option maxRecDepth 4000 in
lemma sim_fifth : compute_meaning_similarity ["a b c d e"] ["a"] = 1/5 := by
  unfold compute_meaning_similarity
  rw [if_neg (by decide), if_neg (by decide), if_neg (by decide)]
  rw [show (tokenSet ["a b c d e"] ∩ tokenSet ["a"]).card = 1 from by decide]
  rw [show (tokenSet ["a b c d e"] ∪ tokenSet ["a"]).card = 5 from by decide]
  norm_num

/-- C8: with both token sets non-empty the score is the Jaccard similarity
of the token sets, always in [0,1]; identical token sets give 1 and
disjoint token sets give 0 on the spec's examples. -/
theorem similarity_jaccard :
    (∀ jp cn : List String, ¬ tokenSet jp = ∅ → ¬ tokenSet cn = ∅ →
      compute_meaning_similarity jp cn =
        ((tokenSet jp ∩ tokenSet cn).card : ℚ) / ((tokenSet jp ∪ tokenSet cn).card : ℚ) ∧
      0 ≤ compute_meaning_similarity jp cn ∧
      compute_meaning_similarity jp cn ≤ 1) ∧
    compute_meaning_similarity ["run fast"] ["run fast"] = 1 ∧
    compute_meaning_similarity ["run fast"] ["sit slow"] = 0 := by
  refine ⟨?_, sim_run_run, sim_run_sit⟩
  intro jp cn hjp hcn
  have hjl : ¬ jp = [] := by
    intro h; exact hjp (by simp [h, tokenSet])
  have hcl : ¬ cn = [] := by
    intro h; exact hcn (by simp [h, tokenSet])
  have huni : ¬ tokenSet jp ∪ tokenSet cn = ∅ := by
    intro h
    rcases Finset.union_eq_empty.mp h with ⟨h1, _⟩
    exact hjp h1
  have hval : compute_meaning_similarity jp cn =
      ((tokenSet jp ∩ tokenSet cn).card : ℚ) / ((tokenSet jp ∪ tokenSet cn).card : ℚ) := by
    unfold compute_meaning_similarity
    rw [if_neg (by tauto), if_neg (by tauto), if_neg huni]
  have hcardpos : (0 : ℚ) < ((tokenSet jp ∪ tokenSet cn).card : ℚ) := by
    have := Finset.card_pos.mpr (Finset.nonempty_iff_ne_empty.mpr huni)
    exact_mod_cast this
  refine ⟨hval, ?_, ?_⟩
  · rw [hval]
    positivity
  · rw [hval]
    rw [div_le_one hcardpos]
    exact_mod_cast Finset.card_le_card Finset.inter_subset_union

/-- Witness for C8 at the spec's disjoint example. -/
theorem similarity_jaccard_witness :
    compute_meaning_similarity ["run fast"] ["sit slow"] =
      ((tokenSet ["run fast"] ∩ tokenSet ["sit slow"]).card : ℚ) /
        ((tokenSet ["run fast"] ∪ tokenSet ["sit slow"]).card : ℚ) :=
  ((similarity_jaccard.1 ["run fast"] ["sit slow"] (by decide) (by decide)).1)

/-- C10: the similarity scorer is symmetric in its two arguments. -/
theorem similarity_symm (a b : List String) :
    compute_meaning_similarity a b = compute_meaning_similarity b a := by
  unfold compute_meaning_similarity
  by_cases h1 : a = [] ∨ b = []
  · rw [if_pos h1, if_pos (Or.symm h1)]
  · rw [if_neg h1, if_neg (fun h => h1 (Or.symm h))]
    by_cases h2 : tokenSet a = ∅ ∨ tokenSet b = ∅
    · rw [if_pos h2, if_pos (Or.symm h2)]
    · rw [if_neg h2, if_neg (fun h => h2 (Or.symm h))]
      rw [Finset.inter_comm, Finset.union_comm]

end Yomikae

namespace Yomikae

lemma backfill_eq (ff ex : FalseFriend) :
    backfillPinyin (backfillReading ff ex) ex =
      { ff with
          jp_reading :=
            if ff.jp_reading = "" ∧ ¬ ex.jp_reading = "" then ex.jp_reading
            else ff.jp_reading
          cn_pinyin :=
            if ff.cn_pinyin = "" ∧ ¬ ex.cn_pinyin = "" then ex.cn_pinyin
            else ff.cn_pinyin } := by
  unfold backfillReading backfillPinyin
  by_cases h1 : ff.jp_reading = "" ∧ ¬ ex.jp_reading = "" <;>
    by_cases h2 : ff.cn_pinyin = "" ∧ ¬ ex.cn_pinyin = "" <;>
      simp [h1, h2]

lemma backfill_characters (ff ex : FalseFriend) :
    (backfillPinyin (backfillReading ff ex) ex).characters = ff.characters := by
  rw [backfill_eq]

lemma dictInsert_nil (ff : FalseFriend) : dictInsert [] ff = [ff] := rfl

lemma dictInsert_replace (x ff : FalseFriend) (h : x.characters = ff.characters) :
    dictInsert [x] ff = [ff] := by
  unfold dictInsert
  simp [h]

lemma addJckv_single (x ff : FalseFriend) (h : x.characters = ff.characters) :
    addJckvRecord [x] ff = [backfillPinyin (backfillReading ff x) x] := by
  unfold addJckvRecord
  rw [show List.find? (fun y => y.characters == ff.characters) [x] = some x from by
    simp [List.find?, h]]
  exact dictInsert_replace x _ (by rw [backfill_characters]; exact h)

/-- C1: on colliding singletons, a mid-trust record replaces a low-trust
one after backfilling its empty phonetic fields from it; a top-trust
record replaces either lower-trust record verbatim, with no backfill. -/
theorem merge_priority_backfill (a j c : FalseFriend)
    (haj : a.characters = j.characters) (hcj : c.characters = j.characters) :
    merge_false_friends [] [j] [a] =
      [{ j with
          jp_reading :=
            if j.jp_reading = "" ∧ ¬ a.jp_reading = "" then a.jp_reading
            else j.jp_reading
          cn_pinyin :=
            if j.cn_pinyin = "" ∧ ¬ a.cn_pinyin = "" then a.cn_pinyin
            else j.cn_pinyin }] ∧
    merge_false_friends [c] [j] [] = [c] ∧
    merge_false_friends [c] [] [a] = [c] := by
  refine ⟨?_, ?_, ?_⟩
  · show ((addJckvRecord [a] j).mergeSort ffLE) = _
    rw [addJckv_single a j haj, List.mergeSort_singleton, backfill_eq]
  · show ((dictInsert [j] c).mergeSort ffLE) = _
    rw [dictInsert_replace j c hcj.symm, List.mergeSort_singleton]
  · show ((dictInsert [a] c).mergeSort ffLE) = _
    rw [dictInsert_replace a c (haj.trans hcj.symm), List.mergeSort_singleton]

/-- Witness for C1 on concrete colliding records: the reading is
backfilled into the JCKV record, the pinyin is kept, and the curated
record always wins verbatim. -/
theorem merge_priority_backfill_witness :
    merge_false_friends [] [sampleJckv] [sampleAuto] =
      [{ sampleJckv with jp_reading := "アイジン" }] ∧
    merge_false_friends [sampleCurated] [sampleJckv] [] = [sampleCurated] ∧
    merge_false_friends [sampleCurated] [] [sampleAuto] = [sampleCurated] := by
  have h := merge_priority_backfill sampleAuto sampleJckv sampleCurated rfl rfl
  refine ⟨?_, h.2.1, h.2.2⟩
  rw [h.1, if_pos (by decide), if_neg (by decide)]
  rfl

end Yomikae

namespace Yomikae

lemma ffLE_trans (a b c : FalseFriend) (h1 : ffLE a b) (h2 : ffLE b c) :
    ffLE a c := by
  simp only [ffLE, decide_eq_true_eq] at h1 h2 ⊢
  rcases h1 with h1 | ⟨h1, h1'⟩ <;> rcases h2 with h2 | ⟨h2, h2'⟩
  · exact Or.inl (h1.trans h2)
  · exact Or.inl (h2 ▸ h1)
  · exact Or.inl (h1 ▸ h2)
  · exact Or.inr ⟨h1.trans h2, le_trans h1' h2'⟩

lemma ffLE_total (a b : FalseFriend) : ffLE a b || ffLE b a := by
  simp only [ffLE, Bool.or_eq_true, decide_eq_true_eq]
  rcases Nat.lt_trichotomy (severity_order a.severity) (severity_order b.severity)
    with h | h | h
  · exact Or.inl (Or.inl h)
  · rcases le_total a.characters b.characters with hc | hc
    · exact Or.inl (Or.inr ⟨h, hc⟩)
    · exact Or.inr (Or.inr ⟨h.symm, hc⟩)
  · exact Or.inr (Or.inl h)

lemma merge_pairwise (c j a : List FalseFriend) :
    (merge_false_friends c j a).Pairwise (fun x y => ffLE x y = true) :=
  List.sorted_mergeSort ffLE_trans ffLE_total _

/-- C3: the merged output is sorted ascending in the key
`(severity rank, characters)`, severity rank being critical 0,
important 1, subtle 2, anything else 3 (no error raised). -/
theorem merged_output_sorted (c j a : List FalseFriend) :
    (merge_false_friends c j a).Chain' (fun x y =>
      severity_order x.severity < severity_order y.severity ∨
      (severity_order x.severity = severity_order y.severity ∧
        x.characters ≤ y.characters)) ∧
    severity_order "critical" = 0 ∧
    severity_order "important" = 1 ∧
    severity_order "subtle" = 2 ∧
    ∀ s : String, ¬ s = "critical" → ¬ s = "important" → ¬ s = "subtle" →
      severity_order s = 3 := by
  refine ⟨?_, rfl, rfl, rfl, ?_⟩
  · exact ((merge_pairwise c j a).imp
      (fun h => by simpa [ffLE, decide_eq_true_eq] using h)).chain'
  · intro s h1 h2 h3
    simp [severity_order, h1, h2, h3]

/-- Witness for C3: the sortedness at a concrete merged list, and the
defensive rank of an unrecognized severity. -/
theorem merged_output_sorted_witness :
    (merge_false_friends [sampleCurated] [sampleJckv] [sampleAuto]).Chain'
      (fun x y =>
        severity_order x.severity < severity_order y.severity ∨
        (severity_order x.severity = severity_order y.severity ∧
          x.characters ≤ y.characters)) ∧
    severity_order "weird" = 3 :=
  ⟨(merged_output_sorted [sampleCurated] [sampleJckv] [sampleAuto]).1,
   (merged_output_sorted [] [] []).2.2.2.2 "weird"
     (by decide) (by decide) (by decide)⟩

end Yomikae

namespace Yomikae

lemma any_chars_iff (m : List FalseFriend) (ff : FalseFriend) :
    (m.any (fun x => x.characters == ff.characters)) = true ↔
      ff.characters ∈ charsOf m := by
  simp only [charsOf, List.any_eq_true, List.mem_map, beq_iff_eq]

lemma charsOf_dictInsert_of_mem {m : List FalseFriend} {ff : FalseFriend}
    (h : ff.characters ∈ charsOf m) :
    charsOf (dictInsert m ff) = charsOf m := by
  unfold dictInsert
  rw [if_pos ((any_chars_iff m ff).mpr h)]
  unfold charsOf
  rw [List.map_map]
  apply List.map_congr_left
  intro x hx
  by_cases hb : (x.characters == ff.characters) = true
  · simp only [Function.comp_apply, if_pos hb]
    exact (beq_iff_eq.mp hb).symm
  · simp only [Function.comp_apply, if_neg hb]

lemma charsOf_dictInsert_of_not_mem {m : List FalseFriend} {ff : FalseFriend}
    (h : ff.characters ∉ charsOf m) :
    charsOf (dictInsert m ff) = charsOf m ++ [ff.characters] := by
  unfold dictInsert
  rw [if_neg (fun hh => h ((any_chars_iff m ff).mp hh))]
  unfold charsOf
  rw [List.map_append]
  rfl

lemma mem_charsOf_dictInsert (m : List FalseFriend) (ff : FalseFriend)
    (s : String) :
    s ∈ charsOf (dictInsert m ff) ↔ s ∈ charsOf m ∨ s = ff.characters := by
  by_cases h : ff.characters ∈ charsOf m
  · rw [charsOf_dictInsert_of_mem h]
    constructor
    · exact Or.inl
    · rintro (hs | rfl)
      · exact hs
      · exact h
  · rw [charsOf_dictInsert_of_not_mem h]
    simp

lemma nodup_charsOf_dictInsert (m : List FalseFriend) (ff : FalseFriend)
    (h : (charsOf m).Nodup) : (charsOf (dictInsert m ff)).Nodup := by
  by_cases hm : ff.characters ∈ charsOf m
  · rwa [charsOf_dictInsert_of_mem hm]
  · rw [charsOf_dictInsert_of_not_mem hm]
    simp [List.nodup_append, h, List.disjoint_singleton, hm]

lemma addJckv_eq_dictInsert (m : List FalseFriend) (ff : FalseFriend) :
    ∃ g : FalseFriend, g.characters = ff.characters ∧
      addJckvRecord m ff = dictInsert m g := by
  unfold addJckvRecord
  cases h : m.find? (fun x => x.characters == ff.characters) with
  | none => exact ⟨ff, rfl, rfl⟩
  | some ex => exact ⟨_, backfill_characters ff ex, rfl⟩

lemma mem_charsOf_addJckv (m : List FalseFriend) (ff : FalseFriend)
    (s : String) :
    s ∈ charsOf (addJckvRecord m ff) ↔ s ∈ charsOf m ∨ s = ff.characters := by
  obtain ⟨g, hg, he⟩ := addJckv_eq_dictInsert m ff
  rw [he, mem_charsOf_dictInsert, hg]

lemma nodup_charsOf_addJckv (m : List FalseFriend) (ff : FalseFriend)
    (h : (charsOf m).Nodup) : (charsOf (addJckvRecord m ff)).Nodup := by
  obtain ⟨g, _, he⟩ := addJckv_eq_dictInsert m ff
  rw [he]
  exact nodup_charsOf_dictInsert m g h

lemma nodup_charsOf_foldl_dictInsert (l : List FalseFriend) :
    ∀ m : List FalseFriend, (charsOf m).Nodup →
      (charsOf (l.foldl dictInsert m)).Nodup := by
  induction l with
  | nil => intro m h; exact h
  | cons x xs ih =>
    intro m h
    exact ih _ (nodup_charsOf_dictInsert m x h)

lemma nodup_charsOf_foldl_addJckv (l : List FalseFriend) :
    ∀ m : List FalseFriend, (charsOf m).Nodup →
      (charsOf (l.foldl addJckvRecord m)).Nodup := by
  induction l with
  | nil => intro m h; exact h
  | cons x xs ih =>
    intro m h
    exact ih _ (nodup_charsOf_addJckv m x h)

lemma mem_charsOf_foldl_dictInsert (l : List FalseFriend) :
    ∀ (m : List FalseFriend) (s : String),
      s ∈ charsOf (l.foldl dictInsert m) ↔ s ∈ charsOf m ∨ s ∈ charsOf l := by
  induction l with
  | nil => intro m s; simp [charsOf]
  | cons x xs ih =>
    intro m s
    rw [List.foldl_cons, ih, mem_charsOf_dictInsert]
    simp only [charsOf, List.map_cons, List.mem_cons]
    tauto

lemma mem_charsOf_foldl_addJckv (l : List FalseFriend) :
    ∀ (m : List FalseFriend) (s : String),
      s ∈ charsOf (l.foldl addJckvRecord m) ↔ s ∈ charsOf m ∨ s ∈ charsOf l := by
  induction l with
  | nil => intro m s; simp [charsOf]
  | cons x xs ih =>
    intro m s
    rw [List.foldl_cons, ih, mem_charsOf_addJckv]
    simp only [charsOf, List.map_cons, List.mem_cons]
    tauto

lemma merge_perm_foldl (c j a : List FalseFriend) :
    List.Perm (merge_false_friends c j a)
      (c.foldl dictInsert (j.foldl addJckvRecord (a.foldl dictInsert []))) :=
  List.mergeSort_perm _ ffLE

lemma merge_chars_nodup (c j a : List FalseFriend) :
    (charsOf (merge_false_friends c j a)).Nodup := by
  have hperm := (merge_perm_foldl c j a).map FalseFriend.characters
  rw [show charsOf (merge_false_friends c j a) =
    (merge_false_friends c j a).map FalseFriend.characters from rfl]
  rw [List.Perm.nodup_iff hperm]
  exact nodup_charsOf_foldl_dictInsert c _
    (nodup_charsOf_foldl_addJckv j _
      (nodup_charsOf_foldl_dictInsert a [] (by simp [charsOf])))

lemma merge_chars_mem (c j a : List FalseFriend) (s : String) :
    s ∈ charsOf (merge_false_friends c j a) ↔ s ∈ charsOf (c ++ j ++ a) := by
  have hperm := (merge_perm_foldl c j a).map FalseFriend.characters
  rw [show charsOf (merge_false_friends c j a) =
    (merge_false_friends c j a).map FalseFriend.characters from rfl]
  rw [hperm.mem_iff]
  rw [show (c.foldl dictInsert
      (j.foldl addJckvRecord (a.foldl dictInsert []))).map FalseFriend.characters =
    charsOf (c.foldl dictInsert (j.foldl addJckvRecord (a.foldl dictInsert [])))
    from rfl]
  rw [mem_charsOf_foldl_dictInsert, mem_charsOf_foldl_addJckv,
    mem_charsOf_foldl_dictInsert]
  simp only [charsOf, List.map_append, List.mem_append, List.map_nil,
    List.not_mem_nil]
  tauto

/-- C9: `characters` values are unique in the merged output, and a value
occurs there exactly when it occurs in one of the three inputs. -/
theorem merged_characters_unique (c j a : List FalseFriend) :
    (charsOf (merge_false_friends c j a)).Nodup ∧
    ∀ s : String,
      s ∈ charsOf (merge_false_friends c j a) ↔ s ∈ charsOf (c ++ j ++ a) :=
  ⟨merge_chars_nodup c j a, merge_chars_mem c j a⟩

lemma dictInsert_of_not_mem {m : List FalseFriend} {ff : FalseFriend}
    (h : ff.characters ∉ charsOf m) : dictInsert m ff = m ++ [ff] := by
  unfold dictInsert
  rw [if_neg (fun hh => h ((any_chars_iff m ff).mp hh))]

lemma foldl_dictInsert_disjoint (l : List FalseFriend) :
    ∀ acc : List FalseFriend, (charsOf l).Nodup →
      (∀ s, s ∈ charsOf l → s ∉ charsOf acc) →
      l.foldl dictInsert acc = acc ++ l := by
  induction l with
  | nil => intro acc _ _; simp
  | cons x xs ih =>
    intro acc hnd hdisj
    have hxc : x.characters ∈ charsOf (x :: xs) := by simp [charsOf]
    have hx : x.characters ∉ charsOf acc := hdisj x.characters hxc
    simp only [charsOf, List.map_cons, List.nodup_cons] at hnd
    have hdisj' : ∀ s, s ∈ charsOf xs → s ∉ charsOf (acc ++ [x]) := by
      intro s hs
      have h1 : s ∉ charsOf acc := by
        apply hdisj
        simp only [charsOf, List.map_cons, List.mem_cons]
        exact Or.inr hs
      have h2 : ¬ s = x.characters := by
        intro he
        exact hnd.1 (he ▸ hs)
      simp only [charsOf, List.map_append, List.map_cons, List.map_nil,
        List.mem_append, List.mem_cons, List.not_mem_nil, or_false, not_or]
      exact ⟨h1, h2⟩
    rw [List.foldl_cons, dictInsert_of_not_mem hx, ih (acc ++ [x]) hnd.2 hdisj']
    simp

/-- C5: merging the merged output back as the single (curated) source with
two empty lists reproduces it, and merging three empty lists yields the
empty list. -/
theorem merge_idempotent (c j a : List FalseFriend) :
    merge_false_friends (merge_false_friends c j a) [] [] =
      merge_false_friends c j a ∧
    merge_false_friends [] [] [] = ([] : List FalseFriend) := by
  constructor
  · have hnd := merge_chars_nodup c j a
    have hpw := merge_pairwise c j a
    show ((merge_false_friends c j a).foldl dictInsert []).mergeSort ffLE = _
    rw [foldl_dictInsert_disjoint _ [] hnd (by intro s _; simp [charsOf]),
      List.nil_append]
    exact List.mergeSort_of_sorted hpw
  · show (([] : List FalseFriend)).mergeSort ffLE = []
    exact List.mergeSort_nil

end Yomikae

namespace Yomikae

lemma autoCandidate_fields {w : String} {jp cn : List String} {t : ℚ}
    {i : Nat} {ff : FalseFriend} (h : autoCandidate w jp cn t i = some ff) :
    ff.characters = w ∧ ff.source = "auto" ∧ ff.needs_review = true ∧
    ff.category = "true_divergence" ∧
    compute_meaning_similarity jp cn < t ∧
    ff.confidence = 1 - compute_meaning_similarity jp cn ∧
    (ff.type = 3 ∨ ff.type = 4) ∧
    (compute_meaning_similarity jp cn < 1/10 →
      ff.severity = "critical" ∧ ff.type = 4) ∧
    (¬ compute_meaning_similarity jp cn < 1/10 →
      compute_meaning_similarity jp cn < 1/5 →
      ff.severity = "important" ∧ ff.type = 3) ∧
    (¬ compute_meaning_similarity jp cn < 1/5 →
      ff.severity = "subtle" ∧ ff.type = 3) := by
  unfold autoCandidate at h
  by_cases hlt : compute_meaning_similarity jp cn < t
  · rw [if_pos hlt] at h
    injection h with h'
    subst h'
    refine ⟨rfl, rfl, rfl, rfl, hlt, rfl, ?_, ?_, ?_, ?_⟩
    · by_cases h10 : compute_meaning_similarity jp cn < 1/10
      · exact Or.inr (by simp only [if_pos h10])
      · exact Or.inl (by simp only [if_neg h10])
    · intro h10
      exact ⟨by simp only [if_pos h10], by simp only [if_pos h10]⟩
    · intro h10 h5
      exact ⟨by simp only [if_neg h10, if_pos h5], by simp only [if_neg h10]⟩
    · intro h5
      have h10 : ¬ compute_meaning_similarity jp cn < 1/10 :=
        fun hh => h5 (hh.trans_le (by norm_num))
      exact ⟨by simp only [if_neg h10, if_neg h5], by simp only [if_neg h10]⟩
  · rw [if_neg hlt] at h
    exact absurd h (by simp)

lemma autoCandidate_emits (w : String) (jp cn : List String) (t : ℚ)
    (i : Nat) (h : compute_meaning_similarity jp cn < t) :
    ∃ ff, autoCandidate w jp cn t i = some ff := by
  unfold autoCandidate
  rw [if_pos h]
  exact ⟨_, rfl⟩

lemma mem_autoStep (t : ℚ) (acc : List FalseFriend)
    (e : String × List String × List String) (ff : FalseFriend) :
    ff ∈ autoStep t acc e ↔
      ff ∈ acc ∨ autoCandidate e.1 e.2.1 e.2.2 t acc.length = some ff := by
  unfold autoStep
  cases h : autoCandidate e.1 e.2.1 e.2.2 t acc.length with
  | none => simp
  | some g =>
    simp only [List.mem_append, List.mem_singleton, Option.some.injEq]
    constructor
    · rintro (ha | rfl)
      · exact Or.inl ha
      · exact Or.inr rfl
    · rintro (ha | rfl)
      · exact Or.inl ha
      · exact Or.inr rfl

lemma mem_foldl_autoStep (t : ℚ)
    (l : List (String × List String × List String)) :
    ∀ (acc : List FalseFriend) (ff : FalseFriend),
      ff ∈ l.foldl (autoStep t) acc →
      ff ∈ acc ∨ ∃ e ∈ l, ∃ i, autoCandidate e.1 e.2.1 e.2.2 t i = some ff := by
  induction l with
  | nil => intro acc ff h; exact Or.inl h
  | cons x xs ih =>
    intro acc ff h
    rcases ih _ ff h with h' | ⟨e, he, i, hc⟩
    · rcases (mem_autoStep t acc x ff).mp h' with h'' | hc
      · exact Or.inl h''
      · exact Or.inr ⟨x, by simp, acc.length, hc⟩
    · exact Or.inr ⟨e, by simp [he], i, hc⟩

lemma mem_foldl_autoStep_of_mem (t : ℚ)
    (l : List (String × List String × List String)) :
    ∀ (acc : List FalseFriend) (ff : FalseFriend),
      ff ∈ acc → ff ∈ l.foldl (autoStep t) acc := by
  induction l with
  | nil => intro acc ff h; exact h
  | cons x xs ih =>
    intro acc ff h
    exact ih _ ff ((mem_autoStep t acc x ff).mpr (Or.inl h))

lemma foldl_autoStep_emits (t : ℚ)
    (l : List (String × List String × List String)) :
    ∀ (acc : List FalseFriend) (e : String × List String × List String),
      e ∈ l → compute_meaning_similarity e.2.1 e.2.2 < t →
      ∃ ff ∈ l.foldl (autoStep t) acc, ff.characters = e.1 := by
  induction l with
  | nil => intro acc e he _; exact absurd he (List.not_mem_nil e)
  | cons x xs ih =>
    intro acc e he hlt
    rcases List.mem_cons.mp he with rfl | he'
    · obtain ⟨ff, hff⟩ := autoCandidate_emits e.1 e.2.1 e.2.2 t acc.length hlt
      refine ⟨ff, ?_, (autoCandidate_fields hff).1⟩
      exact mem_foldl_autoStep_of_mem t xs _ ff
        ((mem_autoStep t acc e ff).mpr (Or.inr hff))
    · exact ih (autoStep t acc x) e he' hlt

/-- C4: a shared word yields a candidate exactly when its similarity score
is strictly below the threshold, and every emitted candidate carries the
documented severity/type bracket, `confidence = 1 - score`,
`source = "auto"` and `needs_review = true`. -/
theorem auto_detect_spec
    (shared : List (String × List String × List String)) (t : ℚ) :
    (∀ ff ∈ auto_detect_false_friends shared t,
      ff.source = "auto" ∧ ff.needs_review = true ∧
      ∃ e ∈ shared, ff.characters = e.1 ∧
        compute_meaning_similarity e.2.1 e.2.2 < t ∧
        ff.confidence = 1 - compute_meaning_similarity e.2.1 e.2.2 ∧
        (compute_meaning_similarity e.2.1 e.2.2 < 1/10 →
          ff.severity = "critical" ∧ ff.type = 4) ∧
        (1/10 ≤ compute_meaning_similarity e.2.1 e.2.2 →
          compute_meaning_similarity e.2.1 e.2.2 < 1/5 →
          ff.severity = "important" ∧ ff.type = 3) ∧
        (1/5 ≤ compute_meaning_similarity e.2.1 e.2.2 →
          ff.severity = "subtle" ∧ ff.type = 3)) ∧
    (∀ e ∈ shared, compute_meaning_similarity e.2.1 e.2.2 < t →
      ∃ ff ∈ auto_detect_false_friends shared t, ff.characters = e.1) := by
  constructor
  · intro ff hff
    unfold auto_detect_false_friends at hff
    rw [List.mem_mergeSort] at hff
    rcases mem_foldl_autoStep t shared [] ff hff with h | ⟨e, he, i, hc⟩
    · exact absurd h (List.not_mem_nil ff)
    · obtain ⟨hch, hsrc, hrev, _, hlt, hconf, _, hcrit, himp, hsub⟩ :=
        autoCandidate_fields hc
      refine ⟨hsrc, hrev, e, he, hch, hlt, hconf, hcrit, ?_, ?_⟩
      · intro h10 h5
        exact himp (not_lt.mpr h10) h5
      · intro h5
        exact hsub (not_lt.mpr h5)
  · intro e he hlt
    obtain ⟨ff, hmem, hch⟩ := foldl_autoStep_emits t shared [] e he hlt
    refine ⟨ff, ?_, hch⟩
    unfold auto_detect_false_friends
    rw [List.mem_mergeSort]
    exact hmem

/-- Witness for C4: the completely-disjoint example scores 0 < 0.3 and is
emitted. -/
theorem auto_detect_spec_witness :
    ∃ ff ∈ auto_detect_false_friends
      [("走", ["run fast"], ["sit slow"])] (3/10), ff.characters = "走" :=
  (auto_detect_spec [("走", ["run fast"], ["sit slow"])] (3/10)).2
    ("走", ["run fast"], ["sit slow"]) (by simp)
    (by show compute_meaning_similarity ["run fast"] ["sit slow"] < 3/10
        rw [sim_run_sit]
        norm_num)

end Yomikae

namespace Yomikae

/-- Counterexample to C6: the auto-detector always assigns category
"true_divergence", so a shared word whose score lands in the subtle
bracket (here 1/5) yields a record with `type = 3` whose category is not
"scope_difference". -/
theorem type_category_consistency_cex :
    ∃ ff ∈ auto_detect_false_friends [("体", ["a b c d e"], ["a"])] (3/10),
      ff.type = 3 ∧ ¬ ff.category = "scope_difference" := by
  obtain ⟨ff, hff⟩ := autoCandidate_emits "体" ["a b c d e"] ["a"] (3/10) 0
    (by rw [sim_fifth]; norm_num)
  have hf := autoCandidate_fields hff
  refine ⟨ff, ?_, ?_, ?_⟩
  · unfold auto_detect_false_friends
    rw [List.mem_mergeSort]
    show ff ∈ List.foldl (autoStep (3/10)) [] [("体", ["a b c d e"], ["a"])]
    rw [List.foldl_cons, List.foldl_nil]
    exact (mem_autoStep (3/10) [] ("体", ["a b c d e"], ["a"]) ff).mpr
      (Or.inr hff)
  · exact (hf.2.2.2.2.2.2.2.2.2 (by rw [sim_fifth]; norm_num)).2
  · rw [hf.2.2.2.1]
    decide

/-- C6 amended: records built by the pattern classifier satisfy the full
mapping table (types 1-3 are "scope_difference", type 4 is
"true_divergence"); auto-detected records always carry category
"true_divergence" with type 3 or 4 — so type 4 never pairs with
"scope_difference" anywhere, but an auto-detected type-3 record carries
"true_divergence", not "scope_difference". -/
theorem type_category_consistency_amended :
    (∀ (p : String) (r : Int × String × String),
      classify_pattern p = some r →
      ((r.1 = 1 ∨ r.1 = 2 ∨ r.1 = 3) → r.2.2 = "scope_difference") ∧
      (r.1 = 4 → r.2.2 = "true_divergence")) ∧
    (∀ (shared : List (String × List String × List String)) (thr : ℚ),
      ∀ ff ∈ auto_detect_false_friends shared thr,
        ff.category = "true_divergence" ∧ (ff.type = 3 ∨ ff.type = 4)) := by
  constructor
  · intro p r h
    unfold classify_pattern at h
    split_ifs at h
    · obtain rfl := Option.some.inj h
      exact ⟨fun _ => rfl, fun hh => absurd hh (by decide)⟩
    · obtain rfl := Option.some.inj h
      exact ⟨fun _ => rfl, fun hh => absurd hh (by decide)⟩
    · obtain rfl := Option.some.inj h
      exact ⟨fun _ => rfl, fun hh => absurd hh (by decide)⟩
    · obtain rfl := Option.some.inj h
      refine ⟨fun hh => ?_, fun _ => rfl⟩
      rcases hh with hh | hh | hh <;> exact absurd hh (by decide)
  · intro shared thr ff hff
    unfold auto_detect_false_friends at hff
    rw [List.mem_mergeSort] at hff
    rcases mem_foldl_autoStep thr shared [] ff hff with h | ⟨e, _, i, hc⟩
    · exact absurd h (List.not_mem_nil ff)
    · have hf := autoCandidate_fields hc
      exact ⟨hf.2.2.2.1, hf.2.2.2.2.2.2.1⟩

/-- Witness for the amended C6 at the `≠` code. -/
theorem type_category_consistency_amended_witness :
    classify_pattern "≠" = some (4, "critical", "true_divergence") ∧
    ("true_divergence" : String) = "true_divergence" :=
  ⟨by decide,
   (type_category_consistency_amended.1 "≠" (4, "critical", "true_divergence")
     (by decide)).2 rfl⟩

end Yomikae
